import Mathlib

/-!
Shallow embedding of the gdrive-kde sync core (src/src/sync_manager.py,
src/src/main.py, src/src/config_dialog.py).

The Python registry is a `dict` from job name to a job record; we model it
as an insertion-ordered association list with Python-dict update semantics
(updating an existing key keeps its position, a new key is appended).
The filesystem is a predicate `fs : String → Bool` (os.path.exists) and the
child-process machinery is an oracle `proc : List String → ProcResult`
giving, for a command line, either a launch failure (subprocess.Popen
raises) or a terminated process with its return code and captured stderr.
PyQt signal emissions are collected as a list of events in emission order.
-/

namespace GdriveKde

/-- A job record, as stored by `SyncManager.add_job` and as persisted in
`config.json` under the key `sync_jobs` (fields name, source_dir, dest_dir,
options, auto_sync, interval). -/
structure Job where
  name : String
  source_dir : String
  dest_dir : String
  options : List String
  auto_sync : Bool
  interval : Int
deriving Repr, DecidableEq

/-- The registry: Python dict from name to job, as an insertion-ordered
association list. -/
abbrev Registry := List (String × Job)

/-- Python dict assignment `d[k] = v`: replace the value in place if the key
is present (keeping its position), otherwise append the new binding. -/
def dictInsert (d : Registry) (k : String) (v : Job) : Registry :=
  match d with
  | [] => [(k, v)]
  | p :: rest => if p.1 = k then (k, v) :: rest else p :: dictInsert rest k v

/-- Python dict lookup `d[k]` / `k in d`: first binding with the key. -/
def dictLookup (d : Registry) (k : String) : Option Job :=
  match d with
  | [] => none
  | p :: rest => if p.1 = k then some p.2 else dictLookup rest k

/-- Python `del d[k]` (for string-keyed sets of running-process names we only
track the keys): remove every binding of the key. -/
def dictErase (d : Registry) (k : String) : Registry :=
  d.filter (fun p => p.1 ≠ k)

/-- Python `d[name] = process` on `running_processes`, tracking keys only. -/
def insertName (l : List String) (k : String) : List String :=
  if l.contains k then l else l ++ [k]

/-- Python `del d[name]` on `running_processes`, tracking keys only. -/
def eraseName (l : List String) (k : String) : List String :=
  l.filter (fun x => x ≠ k)

/-- The mutable state of `SyncManager` (sync_manager.py lines 11-14):
`self.jobs` and `self.running_processes` (keys only; the process objects
themselves live in the oracle). -/
structure SyncManager where
  jobs : Registry
  running_processes : List String
deriving Repr, DecidableEq

/-- Model of `SyncManager.__init__`. -/
def SyncManager.init : SyncManager := ⟨[], []⟩

/-- The default options of `add_job` (sync_manager.py line 18). -/
def defaultOptions : List String := ["-av", "--delete"]

/-- Model of `SyncManager.add_job` (sync_manager.py lines 16-27). The Python
parameter `options=None` is modelled as `Option (List String)`: `none` is
the omitted/None argument, replaced by the default token list. -/
def add_job (m : SyncManager) (name source_dir dest_dir : String)
    (options : Option (List String)) (auto_sync : Bool) (interval : Int) :
    SyncManager :=
  let opts := match options with
    | none => defaultOptions
    | some o => o
  let job : Job :=
    { name := name, source_dir := source_dir, dest_dir := dest_dir,
      options := opts, auto_sync := auto_sync, interval := interval }
  { m with jobs := dictInsert m.jobs name job }

/-- Model of `SyncManager.remove_job` (sync_manager.py lines 29-31). -/
def remove_job (m : SyncManager) (name : String) : SyncManager :=
  { m with jobs := dictErase m.jobs name }

/-- Model of `SyncManager.get_jobs` (sync_manager.py lines 33-34). -/
def get_jobs (m : SyncManager) : Registry := m.jobs

/-- Model of `SyncManager.clear_jobs` (sync_manager.py lines 36-37). -/
def clear_jobs (m : SyncManager) : SyncManager :=
  { m with jobs := [] }

/-- The four PyQt signals of `SyncManager` as pure event values:
sync_started, sync_progress, sync_finished, sync_error. -/
inductive Event where
  | started (name : String)
  | progress (name : String) (percent : Int)
  | finished (name : String) (success : Bool)
  | error (name : String) (message : String)
deriving Repr, DecidableEq

/-- What the external process does for a given command line: either
`subprocess.Popen` raises (binary missing, permission denied, ...) with an
exception text, or the process runs to completion with a return code and
captured stderr text. -/
inductive ProcResult where
  | launchFailure (msg : String)
  | exited (returncode : Int) (stderr : String)
deriving Repr, DecidableEq

/-- A process-behaviour oracle: the environment consulted by Popen. -/
abbrev ProcOracle := List String → ProcResult

/-- A filesystem oracle: `os.path.exists`. -/
abbrev FileSystem := String → Bool

/-- The command line built by `start_sync` (sync_manager.py line 52):
`cmd = ['rsync'] + job['options'] + [job['source_dir'], job['dest_dir']]`. -/
def buildCmd (job : Job) : List String :=
  ["rsync"] ++ job.options ++ [job.source_dir, job.dest_dir]

/-- How a call returns to its caller: normally, with the new manager state
and the list of events emitted during the call in emission order, or by
propagating a Python exception. -/
inductive Outcome where
  | normal (m : SyncManager) (events : List Event)
  | raised (msg : String)
deriving Repr, DecidableEq

/-- The body of the `try:` block of `start_sync` (sync_manager.py lines
54-78). `Except.error` is a raised Python exception escaping the block:
the only raising step in this block is `subprocess.Popen`, which raises
before `running_processes[name] = process` and before
`sync_started.emit(name)`. On a successful launch the process is recorded
as running, `Started` is emitted, the call blocks until exit, the outcome
is classified by the return code, and the running marker is deleted. -/
def tryBlock (proc : ProcOracle) (m : SyncManager) (name : String)
    (cmd : List String) : Except String (SyncManager × List Event) :=
  match proc cmd with
  | ProcResult.launchFailure msg => Except.error msg
  | ProcResult.exited rc stderr =>
    let m1 : SyncManager :=
      { m with running_processes := insertName m.running_processes name }
    let evs :=
      if rc = 0 then
        [Event.started name, Event.finished name true]
      else
        [Event.started name, Event.error name stderr,
         Event.finished name false]
    let m2 : SyncManager :=
      { m1 with running_processes := eraseName m1.running_processes name }
    Except.ok (m2, evs)

/-- Model of `SyncManager.start_sync` (sync_manager.py lines 39-82). Checks the
registry, checks the source directory, builds the command, and runs the
`try`/`except` block; the `except Exception` handler turns a raised launch
failure into `Error` then `Finished(false)` events and a normal return. -/
def start_sync (fs : FileSystem) (proc : ProcOracle) (m : SyncManager)
    (name : String) : Outcome :=
  match dictLookup m.jobs name with
  | none => Outcome.normal m [Event.error name "Sync job not found"]
  | some job =>
    if fs job.source_dir = false then
      Outcome.normal m
        [Event.error name ("Source directory does not exist: " ++ job.source_dir)]
    else
      match tryBlock proc m name (buildCmd job) with
      | Except.ok (m2, evs) => Outcome.normal m2 evs
      | Except.error e =>
        Outcome.normal m [Event.error name e, Event.finished name false]

/-- The events of a normally returning call (a raised call delivers none). -/
def outEvents : Outcome → List Event
  | Outcome.normal _ evs => evs
  | Outcome.raised _ => []

/-- The loop of `SyncManager.start_all_sync` (sync_manager.py lines 84-86)
over a list of job names, threading the manager state and accumulating the
emitted events; a call that raised would propagate and abort the loop. -/
def start_all_aux (fs : FileSystem) (proc : ProcOracle) (m : SyncManager)
    (names : List String) (acc : List Event) : Outcome :=
  match names with
  | [] => Outcome.normal m acc
  | n :: rest =>
    match start_sync fs proc m n with
    | Outcome.normal m1 evs => start_all_aux fs proc m1 rest (acc ++ evs)
    | Outcome.raised e => Outcome.raised e

/-- Model of `SyncManager.start_all_sync` (sync_manager.py lines 84-86):
`for name in self.jobs: self.start_sync(name)`. `start_sync` never mutates
`self.jobs`, so iterating the key snapshot is the loop's behaviour. -/
def start_all_sync (fs : FileSystem) (proc : ProcOracle) (m : SyncManager) :
    Outcome :=
  start_all_aux fs proc m (m.jobs.map Prod.fst) []

/-- The persisted configuration document as seen by `load_config`
(main.py lines 88-110): the file may be missing (`os.path.exists` is
false), the file may fail to parse (`json.load` raises, caught by the
enclosing `except`), or it parses into a well-formed list of job records
under the key sync_jobs. -/
inductive ConfigDoc where
  | missing
  | malformedJson
  | valid (sync_jobs : List Job)
deriving Repr, DecidableEq

/-- Model of `RsyncTrayApp.load_config` (main.py lines 88-110). If the file exists
and parses, the registry is cleared and every record is added via
`add_job` (options passed explicitly, so stored verbatim). If the file is
missing the body after the existence test is skipped; if `json.load`
raises, the exception is caught by the `except` and logged — in both cases
`clear_jobs` is never reached, so the prior registry survives, and no
error propagates to the caller. -/
def load_config (doc : ConfigDoc) (m : SyncManager) : SyncManager :=
  match doc with
  | ConfigDoc.missing => m
  | ConfigDoc.malformedJson => m
  | ConfigDoc.valid recs =>
    recs.foldl
      (fun st r =>
        add_job st r.name r.source_dir r.dest_dir (some r.options)
          r.auto_sync r.interval)
      (clear_jobs m)

/-- The document written by `ConfigDialog.accept` (config_dialog.py line
250): `json.dump({'sync_jobs': list(self.jobs.values())})` — the job
records of the registry in insertion order. -/
def save_config (jobs : Registry) : List Job :=
  jobs.map Prod.snd

/-- Names of the Started events of a trace, in order. -/
def startedNames (evs : List Event) : List String :=
  evs.filterMap (fun e => match e with
    | Event.started n => some n
    | _ => none)

/-- Names of the Finished events of a trace, in order. -/
def finishedNames (evs : List Event) : List String :=
  evs.filterMap (fun e => match e with
    | Event.finished n _ => some n
    | _ => none)

/-! Concrete fixtures used by witnesses and counterexamples, taken from the
test-scenario values of the specification (Scenarios A-C in section 8). -/

/-- The scenario job `docs` of the specification. -/
def job0 : Job :=
  { name := "docs", source_dir := "/tmp/src", dest_dir := "/tmp/dst",
    options := ["-av", "--delete"], auto_sync := false, interval := 60 }

/-- A one-job manager state holding `job0`. -/
def m0 : SyncManager := ⟨[("docs", job0)], []⟩

/-- A filesystem where every path exists. -/
def fsAll : FileSystem := fun _ => true

/-- A filesystem where no path exists. -/
def fsNone : FileSystem := fun _ => false

/-- A process oracle: every launch succeeds and exits 0. -/
def procOk : ProcOracle := fun _ => ProcResult.exited 0 ""

/-- A process oracle: every launch succeeds and exits 13 with stderr text
matching the specification's Scenario B. -/
def procFail13 : ProcOracle := fun _ => ProcResult.exited 13 "Permission denied"

/-- A process oracle: `subprocess.Popen` always raises, matching the
exception text of `test_exception_handling` in test_sync_manager.py. -/
def procBoom : ProcOracle := fun _ => ProcResult.launchFailure "Test exception"

/-! Characterisation lemmas for the embedded operations. -/

theorem dictLookup_dictInsert_self (d : Registry) (k : String) (v : Job) :
    dictLookup (dictInsert d k v) k = some v := by
  induction d with
  | nil => simp [dictInsert, dictLookup]
  | cons p rest ih =>
    by_cases h : p.1 = k
    · simp [dictInsert, dictLookup, h]
    · simp [dictInsert, dictLookup, h, ih]

theorem dictInsert_of_not_mem (d : Registry) (k : String) (v : Job)
    (h : k ∉ d.map Prod.fst) : dictInsert d k v = d ++ [(k, v)] := by
  induction d with
  | nil => simp [dictInsert]
  | cons p rest ih =>
    simp only [List.map_cons, List.mem_cons] at h
    push_neg at h
    have hpk : ¬ p.1 = k := fun hpk => h.1 hpk.symm
    simp [dictInsert, hpk, ih h.2]

theorem dictLookup_isSome_of_mem (d : Registry) (k : String)
    (h : k ∈ d.map Prod.fst) : ∃ v, dictLookup d k = some v := by
  induction d with
  | nil => simp at h
  | cons p rest ih =>
    by_cases hpk : p.1 = k
    · exact ⟨p.2, by simp [dictLookup, hpk]⟩
    · simp only [List.map_cons, List.mem_cons] at h
      rcases h with h | h
      · exact absurd h.symm hpk
      · obtain ⟨v, hv⟩ := ih h
        exact ⟨v, by simp [dictLookup, hpk, hv]⟩

theorem start_sync_of_not_found (fs : FileSystem) (proc : ProcOracle)
    (m : SyncManager) (name : String) (h : dictLookup m.jobs name = none) :
    start_sync fs proc m name
      = Outcome.normal m [Event.error name "Sync job not found"] := by
  simp [start_sync, h]

theorem start_sync_of_no_source (fs : FileSystem) (proc : ProcOracle)
    (m : SyncManager) (name : String) (job : Job)
    (h : dictLookup m.jobs name = some job)
    (hfs : fs job.source_dir = false) :
    start_sync fs proc m name
      = Outcome.normal m
          [Event.error name ("Source directory does not exist: " ++ job.source_dir)] := by
  simp [start_sync, h, hfs]

theorem start_sync_of_launchFailure (fs : FileSystem) (proc : ProcOracle)
    (m : SyncManager) (name : String) (job : Job) (e : String)
    (h : dictLookup m.jobs name = some job)
    (hfs : fs job.source_dir = true)
    (hp : proc (buildCmd job) = ProcResult.launchFailure e) :
    start_sync fs proc m name
      = Outcome.normal m [Event.error name e, Event.finished name false] := by
  simp [start_sync, h, hfs, tryBlock, hp]

theorem start_sync_of_exited (fs : FileSystem) (proc : ProcOracle)
    (m : SyncManager) (name : String) (job : Job) (rc : Int) (stderr : String)
    (h : dictLookup m.jobs name = some job)
    (hfs : fs job.source_dir = true)
    (hp : proc (buildCmd job) = ProcResult.exited rc stderr) :
    start_sync fs proc m name
      = Outcome.normal
          { m with running_processes :=
              eraseName (insertName m.running_processes name) name }
          (if rc = 0 then
            [Event.started name, Event.finished name true]
          else
            [Event.started name, Event.error name stderr,
             Event.finished name false]) := by
  simp [start_sync, h, hfs, tryBlock, hp]

theorem start_sync_isNormal (fs : FileSystem) (proc : ProcOracle)
    (m : SyncManager) (name : String) :
    ∃ m' evs, start_sync fs proc m name = Outcome.normal m' evs := by
  cases h : dictLookup m.jobs name with
  | none => exact ⟨m, _, start_sync_of_not_found fs proc m name h⟩
  | some job =>
    cases hfs : fs job.source_dir with
    | false => exact ⟨m, _, start_sync_of_no_source fs proc m name job h hfs⟩
    | true =>
      cases hp : proc (buildCmd job) with
      | launchFailure e =>
        exact ⟨m, _, start_sync_of_launchFailure fs proc m name job e h hfs hp⟩
      | exited rc stderr =>
        exact ⟨_, _, start_sync_of_exited fs proc m name job rc stderr h hfs hp⟩

theorem start_sync_jobs_eq (fs : FileSystem) (proc : ProcOracle)
    (m : SyncManager) (name : String) (m' : SyncManager) (evs : List Event)
    (h : start_sync fs proc m name = Outcome.normal m' evs) :
    m'.jobs = m.jobs := by
  cases hL : dictLookup m.jobs name with
  | none =>
    rw [start_sync_of_not_found fs proc m name hL] at h
    cases h
    rfl
  | some job =>
    cases hfs : fs job.source_dir with
    | false =>
      rw [start_sync_of_no_source fs proc m name job hL hfs] at h
      cases h
      rfl
    | true =>
      cases hp : proc (buildCmd job) with
      | launchFailure e =>
        rw [start_sync_of_launchFailure fs proc m name job e hL hfs hp] at h
        cases h
        rfl
      | exited rc stderr =>
        rw [start_sync_of_exited fs proc m name job rc stderr hL hfs hp] at h
        cases h
        rfl

theorem start_sync_events_congr (fs : FileSystem) (proc : ProcOracle)
    (name : String) (m m' : SyncManager) (h : m.jobs = m'.jobs) :
    outEvents (start_sync fs proc m name)
      = outEvents (start_sync fs proc m' name) := by
  cases hL : dictLookup m'.jobs name with
  | none =>
    rw [start_sync_of_not_found fs proc m name (h ▸ hL),
        start_sync_of_not_found fs proc m' name hL]
    rfl
  | some job =>
    cases hfs : fs job.source_dir with
    | false =>
      rw [start_sync_of_no_source fs proc m name job (h ▸ hL) hfs,
          start_sync_of_no_source fs proc m' name job hL hfs]
      rfl
    | true =>
      cases hp : proc (buildCmd job) with
      | launchFailure e =>
        rw [start_sync_of_launchFailure fs proc m name job e (h ▸ hL) hfs hp,
            start_sync_of_launchFailure fs proc m' name job e hL hfs hp]
        rfl
      | exited rc stderr =>
        rw [start_sync_of_exited fs proc m name job rc stderr (h ▸ hL) hfs hp,
            start_sync_of_exited fs proc m' name job rc stderr hL hfs hp]
        rfl

theorem startedNames_append (l1 l2 : List Event) :
    startedNames (l1 ++ l2) = startedNames l1 ++ startedNames l2 :=
  List.filterMap_append l1 l2 _

theorem finishedNames_append (l1 l2 : List Event) :
    finishedNames (l1 ++ l2) = finishedNames l1 ++ finishedNames l2 :=
  List.filterMap_append l1 l2 _

theorem start_all_aux_spec (fs : FileSystem) (proc : ProcOracle)
    (J : Registry) :
    ∀ (names : List String) (m : SyncManager) (acc : List Event),
      m.jobs = J →
      ∃ m', m'.jobs = J ∧
        start_all_aux fs proc m names acc
          = Outcome.normal m'
              (acc ++ names.flatMap
                (fun n => outEvents (start_sync fs proc (SyncManager.mk J []) n))) := by
  intro names
  induction names with
  | nil =>
    intro m acc hm
    exact ⟨m, hm, by simp [start_all_aux]⟩
  | cons n rest ih =>
    intro m acc hm
    obtain ⟨m1, evs, hrun⟩ := start_sync_isNormal fs proc m n
    have hjobs : m1.jobs = J := (start_sync_jobs_eq fs proc m n m1 evs hrun).trans hm
    have hev : evs = outEvents (start_sync fs proc (SyncManager.mk J []) n) := by
      have hcongr := start_sync_events_congr fs proc n m (SyncManager.mk J []) (by rw [hm])
      rw [hrun] at hcongr
      exact hcongr
    subst hev
    obtain ⟨m', hj, hrest⟩ := ih m1 (acc ++ _) hjobs
    refine ⟨m', hj, ?_⟩
    simp only [start_all_aux, hrun, List.flatMap_cons]
    rw [hrest, List.append_assoc]

theorem add_job_jobs (st : SyncManager) (r : Job) :
    (add_job st r.name r.source_dir r.dest_dir (some r.options)
      r.auto_sync r.interval).jobs = dictInsert st.jobs r.name r := rfl

theorem load_config_valid_jobs (x : List Job) :
    ∀ (st : SyncManager), (x.map Job.name).Nodup →
      (∀ r ∈ x, r.name ∉ st.jobs.map Prod.fst) →
      (x.foldl
        (fun st r =>
          add_job st r.name r.source_dir r.dest_dir (some r.options)
            r.auto_sync r.interval)
        st).jobs
        = st.jobs ++ x.map (fun r => (r.name, r)) := by
  induction x with
  | nil => intro st _ _; simp
  | cons r rest ih =>
    intro st hnd hfresh
    have hr : r.name ∉ st.jobs.map Prod.fst := hfresh r (by simp)
    have hstep :
        (add_job st r.name r.source_dir r.dest_dir (some r.options)
          r.auto_sync r.interval).jobs = st.jobs ++ [(r.name, r)] := by
      rw [add_job_jobs, dictInsert_of_not_mem st.jobs r.name r hr]
    have hnd' : (rest.map Job.name).Nodup := (List.nodup_cons.mp hnd).2
    have hfresh' : ∀ r' ∈ rest,
        r'.name ∉ (st.jobs ++ [(r.name, r)]).map Prod.fst := by
      intro r' hr' hmem
      simp only [List.map_append, List.mem_append, List.map_cons, List.map_nil,
        List.mem_singleton] at hmem
      rcases hmem with hmem | hmem
      · exact hfresh r' (by simp [hr']) hmem
      · exact (List.nodup_cons.mp hnd).1 (hmem ▸ List.mem_map_of_mem Job.name hr')
    have := ih (add_job st r.name r.source_dir r.dest_dir (some r.options)
        r.auto_sync r.interval) hnd' (by rw [hstep]; exact hfresh')
    simp only [List.foldl_cons, this, hstep, List.map_cons, List.append_assoc,
      List.singleton_append]

/-!
Claim theorems. Each claim of the specification is settled against the
embedded operations above.
-/

/-- C2: for a registered job whose source directory exists and whose external
process launches, exit status 0 yields exactly the event sequence
[Started, Finished(true)], and a non-zero exit status yields exactly
[Started, Error(captured stderr), Finished(false)]. -/
theorem C2_exit_event_sequences (fs : FileSystem) (proc : ProcOracle)
    (m : SyncManager) (name : String) (job : Job) (rc : Int) (stderr : String)
    (h : dictLookup m.jobs name = some job)
    (hfs : fs job.source_dir = true)
    (hp : proc (buildCmd job) = ProcResult.exited rc stderr) :
    outEvents (start_sync fs proc m name)
      = if rc = 0 then
          [Event.started name, Event.finished name true]
        else
          [Event.started name, Event.error name stderr,
           Event.finished name false] := by
  rw [start_sync_of_exited fs proc m name job rc stderr h hfs hp]
  rfl

/-- Witness for C2 at the specification's Scenario B: the job `docs`, exit
code 13, stderr "Permission denied". -/
theorem C2_exit_event_sequences_witness :
    outEvents (start_sync fsAll procFail13 m0 "docs")
      = [Event.started "docs", Event.error "docs" "Permission denied",
         Event.finished "docs" false] := by
  have h := C2_exit_event_sequences fsAll procFail13 m0 "docs" job0 13
    "Permission denied" rfl rfl rfl
  simpa using h

/-- C3: a run of an unregistered name emits exactly one
Error(name, "Sync job not found") and a run of a registered job with a
missing source directory emits exactly one
Error(name, "Source directory does not exist: path"); in both cases the
result is independent of the process oracle (no process is spawned) and the
single-event trace contains no Started and no Finished. -/
theorem C3_precondition_failures (fs : FileSystem) (m : SyncManager)
    (name : String) :
    (dictLookup m.jobs name = none →
      ∀ proc : ProcOracle,
        start_sync fs proc m name
          = Outcome.normal m [Event.error name "Sync job not found"]) ∧
    (∀ job : Job, dictLookup m.jobs name = some job →
      fs job.source_dir = false →
      ∀ proc : ProcOracle,
        start_sync fs proc m name
          = Outcome.normal m
              [Event.error name
                ("Source directory does not exist: " ++ job.source_dir)]) :=
  ⟨fun h proc => start_sync_of_not_found fs proc m name h,
   fun job h hfs proc => start_sync_of_no_source fs proc m name job h hfs⟩

/-- Witness for C3: the unregistered name `nope` and the registered job
`docs` on a filesystem where no path exists. -/
theorem C3_precondition_failures_witness :
    start_sync fsNone procOk m0 "nope"
      = Outcome.normal m0 [Event.error "nope" "Sync job not found"] ∧
    start_sync fsNone procOk m0 "docs"
      = Outcome.normal m0
          [Event.error "docs"
            ("Source directory does not exist: " ++ "/tmp/src")] :=
  ⟨(C3_precondition_failures fsNone m0 "nope").1 rfl procOk,
   (C3_precondition_failures fsNone m0 "docs").2 job0 rfl rfl procOk⟩

/-- C4: for every job that reaches the launch step, the command line is the
tool token "rsync", then the options in order, then the source path, then
the destination path; the destination is the final argument and the source
the second-to-last, and the run consults the process oracle only at that
command line. -/
theorem C4_command_line (fs : FileSystem) (m : SyncManager) (name : String)
    (job : Job) (h : dictLookup m.jobs name = some job)
    (hfs : fs job.source_dir = true) :
    buildCmd job = ["rsync"] ++ job.options ++ [job.source_dir, job.dest_dir] ∧
    (buildCmd job).getLast? = some job.dest_dir ∧
    (buildCmd job).dropLast.getLast? = some job.source_dir ∧
    ∀ proc proc' : ProcOracle,
      proc (buildCmd job) = proc' (buildCmd job) →
      start_sync fs proc m name = start_sync fs proc' m name := by
  have hsplit : buildCmd job
      = (["rsync"] ++ job.options ++ [job.source_dir]) ++ [job.dest_dir] := by
    simp [buildCmd]
  have hsplit2 : ["rsync"] ++ job.options ++ [job.source_dir]
      = (["rsync"] ++ job.options) ++ [job.source_dir] := by
    simp
  refine ⟨rfl, ?_, ?_, ?_⟩
  · rw [hsplit, List.getLast?_concat]
  · rw [hsplit, List.dropLast_concat, hsplit2, List.getLast?_concat]
  · intro proc proc' hpp
    simp only [start_sync, h, hfs, tryBlock, hpp]

/-- Witness for C4 at the specification's Scenario A command line. -/
theorem C4_command_line_witness :
    buildCmd job0 = ["rsync", "-av", "--delete", "/tmp/src", "/tmp/dst"] := by
  have h := (C4_command_line fsAll m0 "docs" job0 rfl rfl).1
  rw [h]
  rfl

/-- C8: for every filesystem, process behaviour, manager state and input
name, `start_sync` returns normally (never the `raised` outcome): every
error condition is reported only through the emitted events. -/
theorem C8_run_returns_normally :
    ∀ (fs : FileSystem) (proc : ProcOracle) (m : SyncManager) (name : String),
      ∃ m' evs, start_sync fs proc m name = Outcome.normal m' evs :=
  fun fs proc m name => start_sync_isNormal fs proc m name

/-- C9: upserting a job whose name already exists replaces the prior record
entirely: the stored record equals the new specification, with no field of
the old record surviving. -/
theorem C9_upsert_replaces (m : SyncManager) (name s d : String)
    (o : List String) (a : Bool) (i : Int) (old : Job)
    (_h : dictLookup m.jobs name = some old) :
    dictLookup (add_job m name s d (some o) a i).jobs name
      = some { name := name, source_dir := s, dest_dir := d, options := o,
               auto_sync := a, interval := i } :=
  dictLookup_dictInsert_self m.jobs name _

/-- Witness for C9: replacing `docs` wholesale, including its options,
auto_sync and interval fields. -/
theorem C9_upsert_replaces_witness :
    dictLookup (add_job m0 "docs" "/new/src" "/new/dst" (some ["-a"]) true 5).jobs
        "docs"
      = some { name := "docs", source_dir := "/new/src", dest_dir := "/new/dst",
               options := ["-a"], auto_sync := true, interval := 5 } :=
  C9_upsert_replaces m0 "docs" "/new/src" "/new/dst" ["-a"] true 5 job0 rfl

/-- C10: an upsert with the options argument omitted/None stores the default
token list ["-av", "--delete"], while an explicitly supplied options list —
including the empty list — is stored verbatim. -/
theorem C10_default_options :
    ∀ (m : SyncManager) (name s d : String) (a : Bool) (i : Int),
      (dictLookup (add_job m name s d none a i).jobs name).map Job.options
        = some ["-av", "--delete"] ∧
      ∀ o : List String,
        (dictLookup (add_job m name s d (some o) a i).jobs name).map Job.options
          = some o := by
  intro m name s d a i
  constructor
  · rw [show (add_job m name s d none a i).jobs
        = dictInsert m.jobs name
            { name := name, source_dir := s, dest_dir := d,
              options := defaultOptions, auto_sync := a, interval := i }
        from rfl, dictLookup_dictInsert_self]
    rfl
  · intro o
    rw [show (add_job m name s d (some o) a i).jobs
        = dictInsert m.jobs name
            { name := name, source_dir := s, dest_dir := d,
              options := o, auto_sync := a, interval := i }
        from rfl, dictLookup_dictInsert_self]
    rfl

/-- Counterexample to C1: for the registered job `docs` with an existing
source directory, a process that fails to launch produces the event trace
[Error("docs", exception text), Finished("docs", false)] with zero Started
events — the claim's "exactly one Started event ... on every path,
including the path where the external process fails to launch" is false,
because in start_sync the `sync_started.emit` on line 65 comes after the
`subprocess.Popen` call on line 56 that raises. -/
theorem C1_no_started_on_launch_failure :
    dictLookup m0.jobs "docs" = some job0 ∧
    fsAll job0.source_dir = true ∧
    outEvents (start_sync fsAll procBoom m0 "docs")
      = [Event.error "docs" "Test exception",
         Event.finished "docs" false] ∧
    startedNames (outEvents (start_sync fsAll procBoom m0 "docs")) = [] :=
  ⟨rfl, rfl, rfl, rfl⟩

/-- C1 as amended: for every run of a registered job whose source exists,
exactly one Finished event is emitted on every path; at most one Started
event is emitted, and exactly one precisely when the external process
launches (on the launch-failure path no Started is emitted); and the trace
is one of [Started, Finished(true)], [Started, Error, Finished(false)] or
[Error, Finished(false)], so any Error precedes the Finished(false) it is
paired with. -/
theorem C1_run_event_discipline (fs : FileSystem) (proc : ProcOracle)
    (m : SyncManager) (name : String) (job : Job)
    (h : dictLookup m.jobs name = some job)
    (hfs : fs job.source_dir = true) :
    (finishedNames (outEvents (start_sync fs proc m name))).length = 1 ∧
    (startedNames (outEvents (start_sync fs proc m name))).length ≤ 1 ∧
    ((∃ rc stderr, proc (buildCmd job) = ProcResult.exited rc stderr) ↔
      startedNames (outEvents (start_sync fs proc m name)) = [name]) ∧
    (outEvents (start_sync fs proc m name)
        = [Event.started name, Event.finished name true] ∨
     (∃ e, outEvents (start_sync fs proc m name)
        = [Event.started name, Event.error name e,
           Event.finished name false]) ∨
     (∃ e, outEvents (start_sync fs proc m name)
        = [Event.error name e, Event.finished name false])) := by
  cases hp : proc (buildCmd job) with
  | launchFailure e =>
    rw [start_sync_of_launchFailure fs proc m name job e h hfs hp]
    refine ⟨rfl, by simp [startedNames, outEvents], ?_,
      Or.inr (Or.inr ⟨e, rfl⟩)⟩
    constructor
    · rintro ⟨rc, stderr, hrc⟩
      cases hrc
    · intro hcontra
      simp [startedNames, outEvents] at hcontra
  | exited rc stderr =>
    rw [start_sync_of_exited fs proc m name job rc stderr h hfs hp]
    by_cases hrc : rc = 0
    · rw [if_pos hrc]
      exact ⟨rfl, by simp [startedNames, outEvents],
        ⟨fun _ => rfl, fun _ => ⟨rc, stderr, rfl⟩⟩, Or.inl rfl⟩
    · rw [if_neg hrc]
      exact ⟨rfl, by simp [startedNames, outEvents],
        ⟨fun _ => rfl, fun _ => ⟨rc, stderr, rfl⟩⟩,
        Or.inr (Or.inl ⟨stderr, rfl⟩)⟩

/-- Witness for the amended C1 at Scenario A: `docs` with a successful
launch and exit 0. -/
theorem C1_run_event_discipline_witness :
    (finishedNames (outEvents (start_sync fsAll procOk m0 "docs"))).length = 1 ∧
    startedNames (outEvents (start_sync fsAll procOk m0 "docs")) = ["docs"] :=
  ⟨(C1_run_event_discipline fsAll procOk m0 "docs" job0 rfl rfl).1,
   (C1_run_event_discipline fsAll procOk m0 "docs" job0 rfl rfl).2.2.1.mp
     ⟨0, "", rfl⟩⟩

/-- Counterexample to C5: loading a missing configuration document over a
non-empty prior registry does not result in an empty job set — in
`load_config` the `clear_jobs` call on line 97 of main.py is only reached
when the file exists and `json.load` succeeds, so the prior registry
survives both the missing-file and the malformed-file paths. -/
theorem C5_missing_config_keeps_prior_jobs :
    (load_config ConfigDoc.missing m0).jobs = [("docs", job0)] ∧
    (load_config ConfigDoc.malformedJson m0).jobs = [("docs", job0)] ∧
    ([("docs", job0)] : Registry) ≠ [] :=
  ⟨rfl, rfl, fun hcontra => List.cons_ne_nil _ _ hcontra⟩

/-- C5 as amended: loading a missing or malformed document leaves the
registry exactly in its prior state (so the job set is empty only when it
already was, as on orchestrator startup), and the load returns normally —
the `except` in load_config absorbs the error, which is modelled by
`load_config` being a total function into `SyncManager`. -/
theorem C5_load_errors_leave_registry :
    ∀ (m : SyncManager) (doc : ConfigDoc),
      doc = ConfigDoc.missing ∨ doc = ConfigDoc.malformedJson →
      load_config doc m = m ∧
      ((load_config doc m).jobs = [] ↔ m.jobs = []) := by
  intro m doc h
  rcases h with h | h <;> subst h <;> exact ⟨rfl, Iff.rfl⟩

/-- Witness for the amended C5: a missing document over the fresh empty
manager leaves it empty. -/
theorem C5_load_errors_leave_registry_witness :
    load_config ConfigDoc.missing SyncManager.init = SyncManager.init :=
  (C5_load_errors_leave_registry SyncManager.init ConfigDoc.missing
    (Or.inl rfl)).1

/-- Record fixtures for the round-trip claim: two well-formed records (every
field present) sharing the name "a". -/
def recA : Job :=
  { name := "a", source_dir := "/s1", dest_dir := "/d1",
    options := ["-av"], auto_sync := false, interval := 60 }

/-- Second record with the same name as `recA` but a different source. -/
def recB : Job :=
  { name := "a", source_dir := "/s2", dest_dir := "/d2",
    options := ["-av"], auto_sync := false, interval := 60 }

/-- Counterexample to C6: for the well-formed sequence [recA, recB] (every
record has all six fields) whose two records share the name "a", loading
and saving yields [recB] — the second upsert overwrites the first, so
Save(Load(x)) is not x for every well-formed sequence. -/
theorem C6_duplicate_names_break_roundtrip :
    save_config (load_config (ConfigDoc.valid [recA, recB])
        SyncManager.init).jobs
      = [recB] ∧ [recB] ≠ [recA, recB] :=
  ⟨rfl, by decide⟩

/-- C6 as amended: Save(Load(x)) equals x for every well-formed job
sequence x whose record names are pairwise distinct, from any prior
registry state. -/
theorem C6_roundtrip (x : List Job) (m : SyncManager)
    (h : (x.map Job.name).Nodup) :
    save_config (load_config (ConfigDoc.valid x) m).jobs = x := by
  show ((x.foldl
      (fun st r =>
        add_job st r.name r.source_dir r.dest_dir (some r.options)
          r.auto_sync r.interval)
      (clear_jobs m)).jobs).map Prod.snd = x
  rw [load_config_valid_jobs x (clear_jobs m) h (by intro r _; simp [clear_jobs])]
  simp only [clear_jobs, List.nil_append, List.map_map]
  exact List.map_congr_left (fun r _ => rfl) |>.trans (List.map_id x)

/-- Witness for the amended C6 on a singleton sequence. -/
theorem C6_roundtrip_witness :
    save_config (load_config (ConfigDoc.valid [recA]) SyncManager.init).jobs
      = [recA] :=
  C6_roundtrip [recA] SyncManager.init (by simp)

/-- Counterexample to C7: a registry of N = 1 jobs whose only job has a
missing source directory makes RunAll emit a single Error event and zero
Started and zero Finished events, so "emits exactly N Started and N
Finished events" fails for this registry. -/
theorem C7_missing_source_breaks_count :
    m0.jobs.length = 1 ∧
    outEvents (start_all_sync fsNone procOk m0)
      = [Event.error "docs" "Source directory does not exist: /tmp/src"] ∧
    startedNames (outEvents (start_all_sync fsNone procOk m0)) = [] :=
  ⟨rfl, rfl, rfl⟩

/-- C7 as amended: RunAll calls Run once per job in the registry snapshot's
insertion order, each call completing before the next begins (the trace is
the in-order concatenation of the per-job traces), and when every job's
source directory exists and every launch succeeds it emits exactly N
Started and N Finished events, in registry order. -/
theorem C7_run_all_sequence (fs : FileSystem) (proc : ProcOracle)
    (m : SyncManager)
    (h : ∀ n ∈ m.jobs.map Prod.fst, ∀ job : Job,
      dictLookup m.jobs n = some job →
        fs job.source_dir = true ∧
        ∃ rc stderr, proc (buildCmd job) = ProcResult.exited rc stderr) :
    ∃ m', start_all_sync fs proc m
        = Outcome.normal m'
            ((m.jobs.map Prod.fst).flatMap
              (fun n => outEvents (start_sync fs proc m n))) ∧
      startedNames ((m.jobs.map Prod.fst).flatMap
          (fun n => outEvents (start_sync fs proc m n)))
        = m.jobs.map Prod.fst ∧
      finishedNames ((m.jobs.map Prod.fst).flatMap
          (fun n => outEvents (start_sync fs proc m n)))
        = m.jobs.map Prod.fst := by
  obtain ⟨m', _, hrun⟩ :=
    start_all_aux_spec fs proc m.jobs (m.jobs.map Prod.fst) m [] rfl
  have hfix : (fun n => outEvents (start_sync fs proc
        (SyncManager.mk m.jobs []) n))
      = fun n => outEvents (start_sync fs proc m n) :=
    funext fun n =>
      start_sync_events_congr fs proc n (SyncManager.mk m.jobs []) m rfl
  rw [hfix, List.nil_append] at hrun
  have perElem : ∀ n ∈ m.jobs.map Prod.fst,
      startedNames (outEvents (start_sync fs proc m n)) = [n] ∧
      finishedNames (outEvents (start_sync fs proc m n)) = [n] := by
    intro n hn
    obtain ⟨job, hjob⟩ := dictLookup_isSome_of_mem m.jobs n hn
    obtain ⟨hfs, rc, stderr, hp⟩ := h n hn job hjob
    rw [start_sync_of_exited fs proc m n job rc stderr hjob hfs hp]
    by_cases hrc : rc = 0
    · rw [if_pos hrc]
      exact ⟨rfl, rfl⟩
    · rw [if_neg hrc]
      exact ⟨rfl, rfl⟩
  have key : ∀ names : List String,
      (∀ n ∈ names,
        startedNames (outEvents (start_sync fs proc m n)) = [n] ∧
        finishedNames (outEvents (start_sync fs proc m n)) = [n]) →
      startedNames (names.flatMap
          (fun n => outEvents (start_sync fs proc m n))) = names ∧
      finishedNames (names.flatMap
          (fun n => outEvents (start_sync fs proc m n))) = names := by
    intro names
    induction names with
    | nil => intro _; exact ⟨rfl, rfl⟩
    | cons n rest ih =>
      intro hall
      have h1 := hall n (by simp)
      have h2 := ih (fun n' hn' => hall n' (by simp [hn']))
      simp [List.flatMap_cons, startedNames_append, finishedNames_append,
        h1.1, h1.2, h2.1, h2.2]
  obtain ⟨hs, hf⟩ := key (m.jobs.map Prod.fst) perElem
  exact ⟨m', hrun, hs, hf⟩

/-- Witness for the amended C7: the one-job registry on a filesystem where
every path exists and a process oracle that always exits 0. -/
theorem C7_run_all_sequence_witness :
    ∃ m', start_all_sync fsAll procOk m0
        = Outcome.normal m'
            ((m0.jobs.map Prod.fst).flatMap
              (fun n => outEvents (start_sync fsAll procOk m0 n))) ∧
      startedNames ((m0.jobs.map Prod.fst).flatMap
          (fun n => outEvents (start_sync fsAll procOk m0 n)))
        = m0.jobs.map Prod.fst ∧
      finishedNames ((m0.jobs.map Prod.fst).flatMap
          (fun n => outEvents (start_sync fsAll procOk m0 n)))
        = m0.jobs.map Prod.fst :=
  C7_run_all_sequence fsAll procOk m0
    (fun _ _ _ _ => ⟨rfl, 0, "", rfl⟩)

end GdriveKde
